import Mathlib

/-!
Verification of the Overseer directory-watcher library.

Shallow embedding of the sources:
  * `src/fs_node.rs`  — `FsNode` / `DirInfo` / `FileInfo` data model, the
    structural mutators, and the tree renderer (`build_tree`, `tree_recursion`);
  * `src/watcher.rs`  — the `Watcher` aggregate, the recursive directory walk
    (`dir_recurse_async`, embedded here as `dir_recurse` over a filesystem
    snapshot), hidden-entry detection (`is_hidden`), and persistence
    (`save` / `load` over an abstract path-indexed byte store);
  * `src/inotify.rs`  — the native-event kind (`Event`), its bitmask decoding
    (`impl From<u32> for Event`), its `Display` rendering, and the per-record
    processing of the watch loop (`INotify::listen`).

Modelling conventions: paths are strings joined with `/` (`PathBuf::push`),
`SystemTime` is a `Nat`, the generic attribute map `HashMap<K, V>` is an
association list of string pairs, and filesystem/OS calls are driven by an
explicit snapshot (`FSTree`) or store passed as an argument.  Machine integers
never overflow in the modelled code paths, so `Nat` is used throughout.
-/

/-- Model of the generic attribute map `HashMap<K, V>` carried by nodes
(`fields` in the source).  The claims never inspect keys or values, so both
are modelled as strings and the map as an association list. -/
abbrev Fields := List (String × String)

/-- `FileInfo` from `src/fs_node.rs`: `name`, `path`, optional
`last_modified`, optional attribute map.  No children. -/
structure FileInfo where
  name : String
  path : String
  last_modified : Option Nat
  fields : Option Fields

mutual
/-- `DirInfo` from `src/fs_node.rs`: `name`, `path`, optional
`last_modified`, the display-only `expanded` flag, the ordered child list
`content`, and the optional attribute map `fields`. -/
inductive DirInfo : Type where
  | mk (name : String) (path : String) (last_modified : Option Nat)
       (expanded : Bool) (content : List FsNode) (fields : Option Fields)

/-- `FsNode` from `src/fs_node.rs`: the closed `Directory | File` sum. -/
inductive FsNode : Type where
  | Directory (d : DirInfo)
  | File (f : FileInfo)
end

def DirInfo.name : DirInfo → String
  | .mk n _ _ _ _ _ => n

def DirInfo.path : DirInfo → String
  | .mk _ p _ _ _ _ => p

def DirInfo.last_modified : DirInfo → Option Nat
  | .mk _ _ lm _ _ _ => lm

def DirInfo.expanded : DirInfo → Bool
  | .mk _ _ _ e _ _ => e

def DirInfo.content : DirInfo → List FsNode
  | .mk _ _ _ _ c _ => c

def DirInfo.fields : DirInfo → Option Fields
  | .mk _ _ _ _ _ f => f

/-- `FsNode::is_dir`. -/
def FsNode.is_dir : FsNode → Bool
  | .Directory _ => true
  | .File _ => false

/-- `FsNode::name`. -/
def FsNode.name : FsNode → String
  | .Directory d => d.name
  | .File f => f.name

/-- `FsNode::path`. -/
def FsNode.path : FsNode → String
  | .Directory d => d.path
  | .File f => f.path

/-- `DirInfo::set_content`: the child list is replaced wholesale. -/
def DirInfo.set_content : DirInfo → List FsNode → DirInfo
  | .mk n p lm e _ f, content => .mk n p lm e content f

/-- `DirInfo::insert`: `self.content.push(content)` — an unconditional push,
with no duplicate check. -/
def DirInfo.insert : DirInfo → FsNode → DirInfo
  | .mk n p lm e c f, node => .mk n p lm e (c ++ [node]) f

/-- `DirInfo::remove`: `self.content.retain(|n| n.path() != path)` — drops
every child whose `path` equals the argument. -/
def DirInfo.remove : DirInfo → String → DirInfo
  | .mk n p lm e c f, target => .mk n p lm e (c.filter fun node => node.path != target) f

/-- The spec invariant on a directory's children: no two entries share the
same absolute path. -/
abbrev pathsNodup (d : DirInfo) : Prop := (d.content.map FsNode.path).Nodup

/-! ### Node sizes (termination measures for recursion over the tree) -/

mutual
def sizeDir : DirInfo → Nat
  | .mk _ _ _ _ content _ => 1 + sizeNodes content

def sizeNode : FsNode → Nat
  | .Directory d => 1 + sizeDir d
  | .File _ => 1

def sizeNodes : List FsNode → Nat
  | [] => 0
  | n :: rest => sizeNode n + sizeNodes rest
end

theorem sizeNodes_append (a b : List FsNode) :
    sizeNodes (a ++ b) = sizeNodes a + sizeNodes b := by
  induction a with
  | nil => simp [sizeNodes]
  | cons n rest ih => simp [sizeNodes, ih]; omega

theorem sizeNodes_filter_not (p : FsNode → Bool) (l : List FsNode) :
    sizeNodes (l.filter p) + sizeNodes (l.filter (not ∘ p)) = sizeNodes l := by
  induction l with
  | nil => simp [sizeNodes]
  | cons n rest ih =>
    by_cases h : p n <;>
      simp [h, sizeNodes, Function.comp] <;> omega

theorem one_le_sizeNode (n : FsNode) : 1 ≤ sizeNode n := by
  cases n <;> simp [sizeNode]

/-! ### Renderer (`build_tree` / `tree_recursion` from `src/fs_node.rs`)

The dekor glyphs used by the source: `JointPipeSlim` `├`, `NodePipeSlim` `└`,
`HPipeSlim` `─`, `VPipeSlim` `│`, `ModLetterDownArrowhead` `˅`,
`ModLetterRightArrowhead` `˃`.  The `style!(Bold, FGGreen => …)` /
`style!(Bold, FGBlue => …)` macros are modelled as ANSI-escape wrappers; the
claims only depend on which lines appear and in which order, never on the
exact escape bytes. -/

def styleBoldGreen (s : String) : String := "\x1b[1;32m" ++ s ++ "\x1b[0m"

def styleBoldBlue (s : String) : String := "\x1b[1;34m" ++ s ++ "\x1b[0m"

/-- `matches!(n, FsNode::File(_))`, the partition predicate of
`tree_recursion`. -/
def isFileNode : FsNode → Bool
  | .File _ => true
  | .Directory _ => false

/-- The `joint` (`" ├──"`, middle child) and `node` (`" └──"`, last child)
connectors built at the top of `tree_recursion`. -/
def connector (isLast : Bool) : String :=
  if isLast then " └──" else " ├──"

/-- The ancestor continuation added to `sub_path`: blank padding after a last
child, `vline` (`" │  "`) after a middle child. -/
def padStr (isLast : Bool) : String :=
  if isLast then "    " else " │  "

/-- The bracketed label of a directory line.  Faithful to the source bug: the
arrowhead is chosen by the *parent's* `expanded` flag (`dir_info.expanded` in
the `FsNode::Directory(subdir)` arm). -/
def dirLabel (parentExpanded : Bool) (name : String) : String :=
  "[" ++ styleBoldGreen (if parentExpanded then "˅" else "˃") ++ "]" ++ styleBoldBlue name

mutual
/-- `tree_recursion` from `src/fs_node.rs`: partitions the children with
files first, then walks the reordered list pushing one line per child and
recursing into expanded subdirectories.  The source threads a `&mut Vec`
accumulator; lines are emitted here in the same push order. -/
def tree_recursion (d : DirInfo) (path : String) : List String :=
  let parts := d.content.partition isFileNode
  treeLoop d.expanded path (parts.1 ++ parts.2).length 0 (parts.1 ++ parts.2)
termination_by sizeDir d
decreasing_by
  simp [List.partition_eq_filter_filter, sizeNodes_append]
  have h := sizeNodes_filter_not isFileNode d.content
  cases d with
  | mk n p lm e c fl => simp [sizeDir, DirInfo.content] at *; omega

/-- The `for (index, entity) in contents.iter().enumerate()` loop body of
`tree_recursion`: `len` is `contents_len`, `idx` the running index. -/
def treeLoop (parentExp : Bool) (path : String) (len idx : Nat) (l : List FsNode) :
    List String :=
  match l with
  | [] => []
  | .File f :: rest =>
      (path ++ connector (idx == len - 1) ++ " " ++ f.name)
        :: treeLoop parentExp path len (idx + 1) rest
  | .Directory sub :: rest =>
      (path ++ connector (idx == len - 1) ++ dirLabel parentExp sub.name)
        :: ((if sub.expanded then tree_recursion sub (path ++ padStr (idx == len - 1)) else [])
            ++ treeLoop parentExp path len (idx + 1) rest)
termination_by sizeNodes l
decreasing_by
  all_goals (simp only [sizeNodes, sizeNode]; omega)
end

/-- The root line pushed by `build_tree` before any recursion; unlike child
directory lines it carries no connector and uses the root's own `expanded`
flag for the arrowhead. -/
def rootLine (d : DirInfo) : String :=
  "[" ++ styleBoldGreen (if d.expanded then "˅" else "˃") ++ "]" ++ styleBoldBlue d.name

/-- `build_tree` from `src/fs_node.rs`: pushes the root line, then calls
`tree_recursion` on the root unconditionally — the root's `expanded` flag is
not consulted before recursing. -/
def build_tree (d : DirInfo) : List String :=
  rootLine d :: tree_recursion d ""

/-- The block of lines one child contributes inside the loop of
`tree_recursion`: its own line, followed (for an expanded directory) by its
recursively rendered descendants. -/
def childLines (parentExp : Bool) (path : String) (isLast : Bool) : FsNode → List String
  | .File f => [path ++ connector isLast ++ " " ++ f.name]
  | .Directory sub =>
      (path ++ connector isLast ++ dirLabel parentExp sub.name)
        :: (if sub.expanded then tree_recursion sub (path ++ padStr isLast) else [])

/-- Spec-side restatement of the renderer's per-level output: one block per
child in list order, where exactly the final child of the level is marked
last (corner connector), all earlier ones are middle children (branch
connector). -/
def renderBlocks (parentExp : Bool) (path : String) : List FsNode → List String
  | [] => []
  | n :: rest =>
      childLines parentExp path rest.isEmpty n ++ renderBlocks parentExp path rest

theorem treeLoop_cons (exp : Bool) (path : String) (len idx : Nat)
    (n : FsNode) (rest : List FsNode) :
    treeLoop exp path len idx (n :: rest)
      = childLines exp path (idx == len - 1) n ++ treeLoop exp path len (idx + 1) rest := by
  cases n <;> simp [treeLoop, childLines]

theorem treeLoop_eq_renderBlocks (l : List FsNode) (exp : Bool) (path : String)
    (len idx : Nat) (h : idx + l.length = len) :
    treeLoop exp path len idx l = renderBlocks exp path l := by
  induction l generalizing idx with
  | nil => simp [treeLoop, renderBlocks]
  | cons n rest ih =>
    rw [treeLoop_cons, renderBlocks]
    have hb : (idx == len - 1) = rest.isEmpty := by
      cases rest with
      | nil =>
        have : idx = len - 1 := by simp at h; omega
        simp [this, List.isEmpty]
      | cons r rs =>
        have : idx ≠ len - 1 := by simp at h; omega
        simp [List.isEmpty, beq_eq_false_iff_ne, this]
    rw [hb, ih (idx + 1) (by simp at h ⊢; omega)]

/-! ### Walker (`src/watcher.rs`)

The live filesystem is modelled as a snapshot: `FSTree` is what one path
currently holds (a file or a directory with named entries, each carrying the
`modified` time its metadata reports — `none` models a failing
`metadata.modified()` call), and a whole filesystem is a lookup
`String → Option FSTree` (`none` models a nonexistent path).  `tokio` task
dispatch is invisible at this level: the concurrent strategy joins every
child before assembling the parent, so the result is the sequential one. -/

inductive FSTree : Type where
  | file (modified : Option Nat)
  | dir (modified : Option Nat) (entries : List (String × FSTree))

def FSTree.modified : FSTree → Option Nat
  | .file m => m
  | .dir m _ => m

/-- `entry.file_type().await?.is_dir()`. -/
def FSTree.isDirNode : FSTree → Bool
  | .file _ => false
  | .dir _ _ => true

/-- `WatcherError` from `src/watcher.rs`.  Payloads (`io::Error`,
`FsNodeError`) carry no information the claims consult. -/
inductive WatcherError : Type where
  | PathDoesNotExist
  | NotADirectory
  | InvalidDirectoryName
  | IOError
  | NodeError
deriving DecidableEq

/-- `FsNodeError` from `src/fs_node.rs`. -/
inductive FsNodeError : Type where
  | PathDoesNotExist
  | IncorrectFSType
  | InvalidName
deriving DecidableEq

/-- `is_hidden` from `src/watcher.rs`: on non-Windows targets a name is
hidden iff it starts with `.` — `name.starts_with('.')`, i.e. its first
character is `.` (the `metadata` parameter is consulted only under
`cfg(target_os = "windows")`, outside this model's target). -/
def is_hidden (name : String) : Bool :=
  match name.data with
  | [] => false
  | c :: _ => c == '.' 

/-- `PathBuf::push` with a bare (relative, nonempty) component. -/
def pathJoin (p name : String) : String := p ++ "/" ++ name

/-- Splits a character list at `/` separators. -/
def pathComponentsAux : List Char → List Char → List String
  | [], acc => [String.mk acc.reverse]
  | c :: rest, acc =>
    if c = '/' then String.mk acc.reverse :: pathComponentsAux rest []
    else pathComponentsAux rest (c :: acc)

/-- `Path::file_name` composed with `to_str`: the final nonempty `/`-separated
component.  (Names produced by the walk are bare entry names joined under the
configured root, the only shape this model feeds it.) -/
def fileName (p : String) : Option String :=
  ((pathComponentsAux p.data []).filter (fun c => c != "")).getLast?

mutual
/-- `dir_recurse_async` from `src/watcher.rs`, run on the snapshot found at
`path`.  Error order follows the source: `read_dir` fails on a missing path
or a non-directory (surfacing as `IOError`, not as the typed
`PathDoesNotExist`/`NotADirectory` of construction-time validation); entry
processing may fail inside the loop; `file_name` and the directory's own
`modified` are checked only after the loop.  The source's struct literal
omits the `expanded` field (it does not compile as written); the walk result
uses the spec's stated default `expanded = true`. -/
def dir_recurse (t : Option FSTree) (path : String) (ignore_hidden : Bool)
    (ignore_list : List String) : Except WatcherError DirInfo :=
  match t with
  | none => .error .IOError
  | some (.file _) => .error .IOError
  | some (.dir dmod entries) =>
    match walkEntries entries path ignore_hidden ignore_list with
    | .error e => .error e
    | .ok content =>
      match fileName path with
      | none => .error .PathDoesNotExist
      | some dir_name =>
        match dmod with
        | none => .error .IOError
        | some lm => .ok (.mk dir_name path (some lm) true content (some []))

/-- The `while let Some(entry) = dir.next_entry()` loop of
`dir_recurse_async`.  Prune-before-recurse: the hidden/ignore test uses only
the bare name and runs before the entry's `modified` time is read and before
any recursion, so a pruned entry's subtree and metadata are never touched. -/
def walkEntries (entries : List (String × FSTree)) (path : String)
    (ignore_hidden : Bool) (ignore_list : List String) :
    Except WatcherError (List FsNode) :=
  match entries with
  | [] => .ok []
  | (name, sub) :: rest =>
    if (ignore_hidden && is_hidden name) || ignore_list.contains name then
      walkEntries rest path ignore_hidden ignore_list
    else
      match sub.modified with
      | none => .error .IOError
      | some lm =>
        if sub.isDirNode then
          match dir_recurse (some sub) (pathJoin path name) ignore_hidden ignore_list with
          | .error e => .error e
          | .ok d =>
            match walkEntries rest path ignore_hidden ignore_list with
            | .error e => .error e
            | .ok tail => .ok (.Directory d :: tail)
        else
          match walkEntries rest path ignore_hidden ignore_list with
          | .error e => .error e
          | .ok tail => .ok (.File ⟨name, pathJoin path name, some lm, none⟩ :: tail)
end

/-- The `Watcher` aggregate from `src/watcher.rs`. -/
structure Watcher where
  dir_name : String
  path : String
  ignore_hidden : Bool
  ignore_list : List String
  dir_info : DirInfo

/-- The shared input-resolution step of `Watcher::new`, `Watcher::load` and
`DirInfo::from`: an empty input is replaced by the current working directory
(`cwd`, passed explicitly; `std::env::current_dir()` is assumed to
succeed), any other input is used verbatim. -/
def resolveInput (input cwd : String) : String :=
  if input = "" then cwd else input

/-- `Watcher::new` from `src/watcher.rs`: resolve the input, validate that
the resolved path exists and is a directory (typed errors), extract the
directory name, and build an aggregate with default ignore configuration
and an empty tree.  (The source's `DirInfo::new` call omits the `expanded`
argument; the model uses the spec default `true`, which no claim consults.) -/
def Watcher.new (input cwd : String) (fs : String → Option FSTree) :
    Except WatcherError Watcher :=
  let path := resolveInput input cwd
  match fs path with
  | none => .error .PathDoesNotExist
  | some (.file _) => .error .NotADirectory
  | some (.dir _ _) =>
    match fileName path with
    | none => .error .InvalidDirectoryName
    | some dir_name =>
      .ok { dir_name, path, ignore_hidden := true, ignore_list := [],
            dir_info := .mk dir_name path none true [] none }

/-- `DirInfo::from` from `src/fs_node.rs` (`from` is a Lean keyword, hence
the name): resolve the input, validate existence and directory-ness with the
typed `FsNodeError`s, and build a fresh node with `last_modified = None`,
`expanded = true`, no children, no fields. -/
def DirInfo.fromPath (input cwd : String) (fs : String → Option FSTree) :
    Except FsNodeError DirInfo :=
  let path := resolveInput input cwd
  match fs path with
  | none => .error .PathDoesNotExist
  | some (.file _) => .error .IncorrectFSType
  | some (.dir _ _) =>
    match fileName path with
    | none => .error .InvalidName
    | some name => .ok (.mk name path none true [] none)

/-- `Watcher::walk` from `src/watcher.rs` as a state transformer on the
aggregate: it runs `dir_recurse` on the configured root and assigns
`self.dir_info` only on success; the early `return Err(e)` leaves `self`
untouched, which the pair's first component records.  (Runtime construction
failure, also an early return before any mutation, is elided.) -/
def Watcher.walkSt (w : Watcher) (fs : String → Option FSTree) :
    Watcher × Option WatcherError :=
  match dir_recurse (fs w.path) w.path w.ignore_hidden w.ignore_list with
  | .error e => (w, some e)
  | .ok d => ({ w with dir_info := d }, none)

/-! ### Claims C1, C2, C6, C10 — the walk -/

/-- Claim C1 (confirmed).  For every walk of a directory whose immediate
entries are `.git`, `a.txt`, `node_modules` — with arbitrary subtrees below
the two pruned names — under `ignore_hidden = true` and
`ignore_list = ["node_modules"]`, the resulting root's children are exactly
the file `a.txt`; `.git` and `node_modules` are skipped before any
recursion (the theorem never constrains `t1`/`t3`, so nothing below them is
visited), and none of their descendants appear anywhere in the result. -/
theorem c1_prune_before_recurse (p dname : String) (t1 t3 : FSTree) (m dm : Nat)
    (h : fileName p = some dname) :
    dir_recurse (some (.dir (some dm)
        [(".git", t1), ("a.txt", .file (some m)), ("node_modules", t3)]))
      p true ["node_modules"]
      = .ok (.mk dname p (some dm) true
          [.File ⟨"a.txt", pathJoin p "a.txt", some m, none⟩] (some [])) := by
  simp [dir_recurse, walkEntries, is_hidden, h, FSTree.modified, FSTree.isDirNode]

theorem c1_prune_before_recurse_witness :
    fileName "root" = some "root" ∧
    dir_recurse (some (.dir (some 7)
        [(".git", .dir none [("HEAD", .file none)]), ("a.txt", .file (some 3)),
         ("node_modules", .dir none [("x", .file none)])]))
      "root" true ["node_modules"]
      = .ok (.mk "root" "root" (some 7) true
          [.File ⟨"a.txt", pathJoin "root" "a.txt", some 3, none⟩] (some [])) :=
  ⟨rfl, c1_prune_before_recurse "root" "root" (.dir none [("HEAD", .file none)])
      (.dir none [("x", .file none)]) 3 7 rfl⟩

/-- Claim C2 (confirmed).  Whenever a walk returns an error — any I/O error
at any depth — the watcher's tree (`dir_info`) is exactly what it was before
the call: the walk aborts as a whole, with no partial result, because the
source assigns `self.dir_info` only after the whole recursion succeeded. -/
theorem c2_failed_walk_preserves_tree (w : Watcher) (fs : String → Option FSTree)
    (w' : Watcher) (e : WatcherError) (h : w.walkSt fs = (w', some e)) :
    w'.dir_info = w.dir_info := by
  unfold Watcher.walkSt at h
  cases hd : dir_recurse (fs w.path) w.path w.ignore_hidden w.ignore_list with
  | error e2 => rw [hd] at h; simp at h; rw [h.1]
  | ok d => rw [hd] at h; simp at h

def c2w : Watcher := ⟨"r", "r", true, [], .mk "r" "r" none true [] none⟩

/-- A snapshot whose failure is two levels deep: entry `r/a/b` reports no
`modified` time, so `metadata.modified()` fails mid-recursion. -/
def c2fs : String → Option FSTree := fun q =>
  if q = "r" then some (.dir (some 5) [("a", .dir (some 6) [("b", .file none)])]) else none

theorem c2_failed_walk_preserves_tree_witness :
    (Watcher.walkSt c2w c2fs).1.dir_info = c2w.dir_info :=
  c2_failed_walk_preserves_tree c2w c2fs (Watcher.walkSt c2w c2fs).1 .IOError
    (by simp [Watcher.walkSt, dir_recurse, walkEntries, c2fs, c2w, is_hidden,
          FSTree.modified, FSTree.isDirNode, pathJoin, fileName, pathComponentsAux])

/-- Claim C6 counterexample.  A walk of a nonexistent root fails with
`IOError` (the wrapped `read_dir` failure), not with the typed
`PathDoesNotExist` the claim requires: `Watcher::walk` performs no root
validation of its own. -/
theorem c6_counterexample :
    Watcher.walkSt ⟨"r", "r", true, [], .mk "r" "r" none true [] none⟩ (fun _ => none)
        = (⟨"r", "r", true, [], .mk "r" "r" none true [] none⟩, some .IOError)
      ∧ WatcherError.IOError ≠ WatcherError.PathDoesNotExist := by
  constructor
  · simp [Watcher.walkSt, dir_recurse]
  · decide

/-- Claim C6 (corrected).  The typed root validation — `PathDoesNotExist`
when the resolved path does not exist, `NotADirectory` when it exists but is
not a directory — happens at aggregate construction (`Watcher::new`), before
any traversal ever runs; the walk itself surfaces a missing or
non-directory root as `IOError` from the underlying directory read, leaving
the tree unmodified. -/
theorem c6_root_validation (w : Watcher) (fs : String → Option FSTree)
    (input cwd : String) (m : Option Nat) :
    (fs w.path = none → w.walkSt fs = (w, some .IOError)) ∧
    (fs w.path = some (.file m) → w.walkSt fs = (w, some .IOError)) ∧
    (fs (resolveInput input cwd) = none →
      Watcher.new input cwd fs = .error .PathDoesNotExist) ∧
    (fs (resolveInput input cwd) = some (.file m) →
      Watcher.new input cwd fs = .error .NotADirectory) := by
  refine ⟨fun h => ?_, fun h => ?_, fun h => ?_, fun h => ?_⟩ <;>
    simp [Watcher.walkSt, Watcher.new, dir_recurse, h]

theorem c6_root_validation_witness :
    Watcher.walkSt ⟨"q", "q", true, [], .mk "q" "q" none true [] none⟩ (fun _ => none)
        = (⟨"q", "q", true, [], .mk "q" "q" none true [] none⟩, some .IOError)
      ∧ Watcher.new "q" "c" (fun _ => none) = .error .PathDoesNotExist
      ∧ Watcher.new "q" "c" (fun _ => some (.file (some 3))) = .error .NotADirectory :=
  ⟨(c6_root_validation ⟨"q", "q", true, [], .mk "q" "q" none true [] none⟩
      (fun _ => none) "q" "c" none).1 rfl,
   (c6_root_validation ⟨"q", "q", true, [], .mk "q" "q" none true [] none⟩
      (fun _ => none) "q" "c" none).2.2.1 rfl,
   (c6_root_validation ⟨"q", "q", true, [], .mk "q" "q" none true [] none⟩
      (fun _ => some (.file (some 3))) "q" "c" (some 3)).2.2.2 rfl⟩

/-- Claim C10 (confirmed).  A successful walk modifies only the tree: the
root name, root path, hidden policy and ignore list of the aggregate are
unchanged by the call. -/
theorem c10_walk_frame (w : Watcher) (fs : String → Option FSTree) (w' : Watcher)
    (h : w.walkSt fs = (w', none)) :
    w'.dir_name = w.dir_name ∧ w'.path = w.path ∧
      w'.ignore_hidden = w.ignore_hidden ∧ w'.ignore_list = w.ignore_list := by
  unfold Watcher.walkSt at h
  cases hd : dir_recurse (fs w.path) w.path w.ignore_hidden w.ignore_list with
  | error e2 => rw [hd] at h; simp at h
  | ok d => rw [hd] at h; simp at h; rw [← h]; exact ⟨rfl, rfl, rfl, rfl⟩

def c10w : Watcher := ⟨"r", "r", true, [], .mk "r" "r" none true [] none⟩

def c10fs : String → Option FSTree := fun q =>
  if q = "r" then some (.dir (some 5) [("a.txt", .file (some 3))]) else none

theorem c10_walk_frame_witness :
    (Watcher.walkSt c10w c10fs).1.dir_name = c10w.dir_name ∧
      (Watcher.walkSt c10w c10fs).1.path = c10w.path ∧
      (Watcher.walkSt c10w c10fs).1.ignore_hidden = c10w.ignore_hidden ∧
      (Watcher.walkSt c10w c10fs).1.ignore_list = c10w.ignore_list :=
  c10_walk_frame c10w c10fs (Watcher.walkSt c10w c10fs).1
    (by simp [Watcher.walkSt, dir_recurse, walkEntries, c10fs, c10w, is_hidden,
          FSTree.modified, FSTree.isDirNode, pathJoin, fileName, pathComponentsAux])

/-! ### Claims C4, C7 — the renderer -/

def c4root : DirInfo := .mk "r" "r" none false [.File ⟨"f", "r/f", none, none⟩] none

/-- Claim C4 counterexample.  The claim includes the root among the
directories whose `expanded = false` suppresses descendant lines, but
`build_tree` calls `tree_recursion` on the root unconditionally: for a
collapsed root with one file child `f`, the child's line still appears in
the output. -/
theorem c4_counterexample : c4root.expanded = false ∧ " └── f" ∈ build_tree c4root := by
  constructor
  · rfl
  · simp [build_tree, tree_recursion, treeLoop, c4root, isFileNode, connector,
      List.partition_eq_filter_filter, DirInfo.content, DirInfo.expanded]

/-- Claim C4 (corrected).  The root's own line is always emitted and the
root's children are rendered regardless of the root's `expanded` value
(first conjunct: `build_tree` never consults it before recursing); every
non-root directory with `expanded = false` contributes its own line but
none of its descendants' lines (second conjunct: the loop emits exactly the
collapsed subdirectory's line and moves on). -/
theorem c4_collapsed_dir_rendering (r : DirInfo) (exp : Bool) (path : String)
    (len idx : Nat) (sub : DirInfo) (rest : List FsNode)
    (h : sub.expanded = false) :
    build_tree r = rootLine r :: tree_recursion r "" ∧
    treeLoop exp path len idx (.Directory sub :: rest)
      = (path ++ connector (idx == len - 1) ++ dirLabel exp sub.name)
          :: treeLoop exp path len (idx + 1) rest := by
  refine ⟨rfl, ?_⟩
  simp [treeLoop, h]

def c4sub : DirInfo := .mk "s" "r/s" none false [.File ⟨"g", "r/s/g", none, none⟩] none

theorem c4_collapsed_dir_rendering_witness :
    treeLoop true "" 1 0 [.Directory c4sub]
      = ["" ++ connector (0 == 1 - 1) ++ dirLabel true c4sub.name] :=
  ((c4_collapsed_dir_rendering c4root true "" 1 0 c4sub [] rfl).2).trans (by simp [treeLoop])

/-- Claim C7 (confirmed).  At every directory level the renderer lists the
`File` children first and the `Directory` children after them, each group in
the tree's child order (the two `filter`s preserve `content` order), and the
blocks are connector-tagged by position: only the final child of the level
is marked last (corner connector `└` via `connector true`), every earlier
child gets the branch connector `├`. -/
theorem c7_files_first_connector_position (d : DirInfo) (path : String) :
    tree_recursion d path
      = renderBlocks d.expanded path
          (d.content.filter isFileNode ++ d.content.filter (not ∘ isFileNode)) := by
  simp only [tree_recursion, List.partition_eq_filter_filter]
  exact treeLoop_eq_renderBlocks _ _ _ _ 0 (by simp)

/-! ### Claim C8 — uniqueness of child paths under the structural mutators -/

def c8dir : DirInfo := .mk "d" "/d" none true [.File ⟨"a", "/d/a", none, none⟩] none

/-- Claim C8 counterexample.  `DirInfo::insert` is an unconditional push:
inserting a node whose `path` equals an existing child's path produces a
child list with two entries of the same absolute path, so `insert` does not
preserve the uniqueness invariant. -/
theorem c8_counterexample :
    pathsNodup c8dir ∧ ¬ pathsNodup (c8dir.insert (.File ⟨"a2", "/d/a", none, none⟩)) := by
  decide

/-- Claim C8 (corrected).  `set_content` with duplicate-free input and
`remove` preserve the children-paths-unique invariant; `insert` preserves it
only under the additional hypothesis that the inserted node's path is not
already among the children's paths (without it the invariant is violated,
see the counterexample). -/
theorem c8_mutators_unique_paths (d : DirInfo) (l : List FsNode) (n : FsNode)
    (p : String) :
    ((l.map FsNode.path).Nodup → pathsNodup (d.set_content l)) ∧
    (pathsNodup d → pathsNodup (d.remove p)) ∧
    (pathsNodup d → FsNode.path n ∉ d.content.map FsNode.path →
      pathsNodup (d.insert n)) := by
  cases d with
  | mk dn dp dlm de dc df =>
    refine ⟨fun h => ?_, fun h => ?_, fun h hn => ?_⟩
    · simpa [pathsNodup, DirInfo.set_content, DirInfo.content] using h
    · simp only [pathsNodup, DirInfo.remove, DirInfo.content] at *
      exact h.sublist ((List.filter_sublist _).map _)
    · simp only [pathsNodup, DirInfo.insert, DirInfo.content] at *
      simp only [List.map_append, List.map_cons, List.map_nil]
      rw [List.nodup_append]
      exact ⟨h, List.nodup_singleton _, by simpa using hn⟩

theorem c8_mutators_unique_paths_witness :
    pathsNodup (c8dir.set_content [.File ⟨"b", "/d/b", none, none⟩]) ∧
    pathsNodup (c8dir.remove "/d/a") ∧
    pathsNodup (c8dir.insert (.File ⟨"b", "/d/b", none, none⟩)) :=
  ⟨(c8_mutators_unique_paths c8dir [.File ⟨"b", "/d/b", none, none⟩]
      (.File ⟨"b", "/d/b", none, none⟩) "/d/a").1 (by decide),
   (c8_mutators_unique_paths c8dir [] (.File ⟨"b", "/d/b", none, none⟩) "/d/a").2.1
      (by decide),
   (c8_mutators_unique_paths c8dir [] (.File ⟨"b", "/d/b", none, none⟩) "/d/a").2.2
      (by decide) (by decide)⟩

/-! ### Watch loop (`src/inotify.rs`)

The raw buffer layout (fixed `inotify_event` header plus variable-length
name trailer, read through raw pointers) sits below this embedding's
abstraction: a native record is given as its event bitmask together with
its UTF-8-decoded trailing name, `none` standing for bytes that are not
valid UTF-8 (`std::str::from_utf8` failure). -/

/-- `Event` from `src/inotify.rs` (including the source's `Uknown` spelling
of the unknown kind). -/
inductive Event : Type where
  | Access | Modify | Attrib | CloseWrite | CloseNoWrite | Open
  | MovedFrom | MovedTo | Create | Delete | DeleteSelf | MoveSelf
  | Unmount | Overflow | Ignored | Uknown
deriving DecidableEq

/-- The `#[repr(u32)]` discriminant of each `Event` variant (the libc
`IN_*` flag values; `Uknown = 0`). -/
def Event.toMask : Event → Nat
  | .Access => 1
  | .Modify => 2
  | .Attrib => 4
  | .CloseWrite => 8
  | .CloseNoWrite => 16
  | .Open => 32
  | .MovedFrom => 64
  | .MovedTo => 128
  | .Create => 256
  | .Delete => 512
  | .DeleteSelf => 1024
  | .MoveSelf => 2048
  | .Unmount => 8192
  | .Overflow => 16384
  | .Ignored => 32768
  | .Uknown => 0

/-- The bitmask values the decoder recognizes (the literal arm of the
`From<u32>` match). -/
def knownMasks : List Nat :=
  [1, 2, 4, 8, 16, 32, 64, 128, 256, 512, 1024, 2048, 8192, 16384, 32768]

/-- `impl From<u32> for Event`: a listed flag value transmutes to the
variant with that discriminant, every other bit pattern maps to `Uknown`. -/
def Event.fromMask : Nat → Event
  | 1 => .Access
  | 2 => .Modify
  | 4 => .Attrib
  | 8 => .CloseWrite
  | 16 => .CloseNoWrite
  | 32 => .Open
  | 64 => .MovedFrom
  | 128 => .MovedTo
  | 256 => .Create
  | 512 => .Delete
  | 1024 => .DeleteSelf
  | 2048 => .MoveSelf
  | 8192 => .Unmount
  | 16384 => .Overflow
  | 32768 => .Ignored
  | _ => .Uknown

/-- `impl Display for Event`: `write!(f, "{}", *self as u32)` — the kind is
rendered as its numeric discriminant, not as its variant name. -/
def Event.display (e : Event) : String := toString e.toMask

/-- `INotifyError` from `src/inotify.rs` (payloads elided). -/
inductive INotifyError : Type where
  | OSError
  | IOError
  | Utf8Error
deriving DecidableEq

/-- The per-record processing of `INotify::listen`: for each native record,
a non-UTF-8 name aborts the loop with `Utf8Error`; otherwise
`format!("{}|{}", Event::from(mask), file_name)` is appended to the log
(each `write!` contributes one appended chunk; the source writes no
newline separator).  The returned list is the sequence of appended
chunks, in order. -/
def listenRecords : List (Nat × Option String) → Except INotifyError (List String)
  | [] => .ok []
  | (mask, name?) :: rest =>
    match name? with
    | none => .error .Utf8Error
    | some name =>
      match listenRecords rest with
      | .error e => .error e
      | .ok outs => .ok (((Event.fromMask mask).display ++ "|" ++ name) :: outs)

/-! ### Claim C5 — event decoding and the log line format -/

/-- Claim C5 counterexample.  A record with the "created" bitmask (256) and
name `x.txt` appends `256|x.txt` — the `Display` impl prints the
discriminant, so the appended line is not the `Create|x.txt` the claim
requires. -/
theorem c5_counterexample :
    listenRecords [(256, some "x.txt")] = .ok ["256|x.txt"]
      ∧ "256|x.txt" ≠ "Create|x.txt" := by
  constructor
  · rfl
  · decide

/-- Claim C5 (corrected).  An unrecognized bitmask decodes to the `Uknown`
kind and does not abort the watch loop (the record is logged and processing
continues over the remaining records); each decoded record appends
`<mask-as-decimal>|<entry-name>`, the event kind being rendered as its
numeric discriminant — so a "created" (256) record named `x.txt` appends
`256|x.txt`, not `Create|x.txt`. -/
theorem c5_unknown_mask_and_line_format (mask : Nat) (name : String)
    (rest : List (Nat × Option String)) (h : mask ∉ knownMasks) :
    Event.fromMask mask = .Uknown ∧
    listenRecords ((mask, some name) :: rest)
      = (listenRecords rest).map
          (fun outs => (((Event.fromMask mask).display ++ "|" ++ name) :: outs)) ∧
    (Event.fromMask 256).display ++ "|" ++ "x.txt" = "256|x.txt" := by
  refine ⟨?_, ?_, rfl⟩
  · unfold Event.fromMask
    split <;> simp_all [knownMasks]
  · cases h2 : listenRecords rest with
    | error e => simp [listenRecords, h2, Except.map]
    | ok outs => simp [listenRecords, h2, Except.map]

theorem c5_unknown_mask_and_line_format_witness :
    (7 : Nat) ∉ knownMasks ∧ Event.fromMask 7 = .Uknown ∧
    listenRecords [(7, some "y")] = .ok ["0|y"] :=
  ⟨by decide, (c5_unknown_mask_and_line_format 7 "y" [] (by decide)).1,
   ((c5_unknown_mask_and_line_format 7 "y" [] (by decide)).2.1).trans rfl⟩

/-! ### Persistence (`Watcher::save` / `Watcher::load` from `src/watcher.rs`)

`bincode` serializes a struct as its fields in order, an enum as a variant
index followed by the payload, collections as a length followed by the
elements, `Option` as a one-byte tag, `bool` as one byte.  The codec below
mirrors that layout over `Nat` tokens; what matters for the round-trip claim
is that every field of the aggregate is written and read back exactly.  The
filesystem side of `save`/`load` is a path-indexed store of encoded blobs
(`std::fs::write` / `std::fs::read`). -/

def encBool (b : Bool) : List Nat := [if b then 1 else 0]

def encString (s : String) : List Nat := s.data.length :: s.data.map Char.toNat

def encOptNat : Option Nat → List Nat
  | none => [0]
  | some n => [1, n]

def encFields (fs : Fields) : List Nat :=
  fs.length :: (fs.map (fun q => encString q.1 ++ encString q.2)).flatten

def encOptFields : Option Fields → List Nat
  | none => [0]
  | some fs => 1 :: encFields fs

def encStringList (l : List String) : List Nat :=
  l.length :: (l.map encString).flatten

def encFile (f : FileInfo) : List Nat :=
  encString f.name ++ encString f.path ++ encOptNat f.last_modified ++ encOptFields f.fields

mutual
def encDir : DirInfo → List Nat
  | .mk name path lm exp content fields =>
      encString name ++ encString path ++ encOptNat lm ++ encBool exp
        ++ (content.length :: encNodes content) ++ encOptFields fields

def encNodes : List FsNode → List Nat
  | [] => []
  | n :: rest => encNode n ++ encNodes rest

def encNode : FsNode → List Nat
  | .Directory d => 0 :: encDir d
  | .File f => 1 :: encFile f
end

/-- `bincode::serialize::<Watcher>`: all five fields, in declaration order. -/
def encWatcher (w : Watcher) : List Nat :=
  encString w.dir_name ++ encString w.path ++ encBool w.ignore_hidden
    ++ encStringList w.ignore_list ++ encDir w.dir_info

def decNat : List Nat → Option (Nat × List Nat)
  | [] => none
  | n :: rest => some (n, rest)

def decBool : List Nat → Option (Bool × List Nat)
  | 0 :: rest => some (false, rest)
  | 1 :: rest => some (true, rest)
  | _ => none

def decChars : Nat → List Nat → Option (List Char × List Nat)
  | 0, l => some ([], l)
  | _ + 1, [] => none
  | k + 1, c :: rest =>
    match decChars k rest with
    | none => none
    | some (cs, l) => some (Char.ofNat c :: cs, l)

def decString (l : List Nat) : Option (String × List Nat) :=
  match decNat l with
  | none => none
  | some (n, l1) =>
    match decChars n l1 with
    | none => none
    | some (cs, l2) => some (String.mk cs, l2)

def decOptNat : List Nat → Option (Option Nat × List Nat)
  | 0 :: rest => some (none, rest)
  | 1 :: n :: rest => some (some n, rest)
  | _ => none

def decFieldsLoop : Nat → List Nat → Option (Fields × List Nat)
  | 0, l => some ([], l)
  | k + 1, l =>
    match decString l with
    | none => none
    | some (a, l1) =>
      match decString l1 with
      | none => none
      | some (b, l2) =>
        match decFieldsLoop k l2 with
        | none => none
        | some (fs, l3) => some ((a, b) :: fs, l3)

def decFields (l : List Nat) : Option (Fields × List Nat) :=
  match decNat l with
  | none => none
  | some (n, l1) => decFieldsLoop n l1

def decOptFields : List Nat → Option (Option Fields × List Nat)
  | 0 :: rest => some (none, rest)
  | 1 :: rest =>
    match decFields rest with
    | none => none
    | some (fs, l1) => some (some fs, l1)
  | _ => none

def decStringsLoop : Nat → List Nat → Option (List String × List Nat)
  | 0, l => some ([], l)
  | k + 1, l =>
    match decString l with
    | none => none
    | some (s, l1) =>
      match decStringsLoop k l1 with
      | none => none
      | some (ss, l2) => some (s :: ss, l2)

def decStringList (l : List Nat) : Option (List String × List Nat) :=
  match decNat l with
  | none => none
  | some (n, l1) => decStringsLoop n l1

def decFile (l : List Nat) : Option (FileInfo × List Nat) :=
  match decString l with
  | none => none
  | some (name, l1) =>
    match decString l1 with
    | none => none
    | some (path, l2) =>
      match decOptNat l2 with
      | none => none
      | some (lm, l3) =>
        match decOptFields l3 with
        | none => none
        | some (fields, l4) => some (⟨name, path, lm, fields⟩, l4)

mutual
def decDirF : Nat → List Nat → Option (DirInfo × List Nat)
  | 0, _ => none
  | fuel + 1, l =>
    match decString l with
    | none => none
    | some (name, l1) =>
      match decString l1 with
      | none => none
      | some (path, l2) =>
        match decOptNat l2 with
        | none => none
        | some (lm, l3) =>
          match decBool l3 with
          | none => none
          | some (exp, l4) =>
            match decNat l4 with
            | none => none
            | some (cnt, l5) =>
              match decNodesF fuel cnt l5 with
              | none => none
              | some (content, l6) =>
                match decOptFields l6 with
                | none => none
                | some (fields, l7) => some (.mk name path lm exp content fields, l7)
termination_by fuel _ => (fuel, 2, 0)

def decNodesF : Nat → Nat → List Nat → Option (List FsNode × List Nat)
  | _, 0, l => some ([], l)
  | fuel, k + 1, l =>
    match decNodeF fuel l with
    | none => none
    | some (n, l1) =>
      match decNodesF fuel k l1 with
      | none => none
      | some (ns, l2) => some (n :: ns, l2)
termination_by fuel k _ => (fuel, 1, k)

def decNodeF : Nat → List Nat → Option (FsNode × List Nat)
  | 0, _ => none
  | fuel + 1, 0 :: l =>
    match decDirF fuel l with
    | none => none
    | some (d, l1) => some (.Directory d, l1)
  | _ + 1, 1 :: l =>
    match decFile l with
    | none => none
    | some (f, l1) => some (.File f, l1)
  | _ + 1, _ => none
termination_by fuel _ => (fuel, 0, 0)
end

theorem one_le_sizeDir (d : DirInfo) : 1 ≤ sizeDir d := by
  cases d with
  | mk n p lm e c f => simp [sizeDir]

theorem decChars_enc (cs : List Char) (rest : List Nat) :
    decChars cs.length (cs.map Char.toNat ++ rest) = some (cs, rest) := by
  induction cs with
  | nil => simp [decChars]
  | cons c cs ih => simp [decChars, ih, Char.ofNat_toNat]

theorem decString_enc (s : String) (rest : List Nat) :
    decString (encString s ++ rest) = some (s, rest) := by
  simp only [decString, encString, List.cons_append, decNat]
  rw [decChars_enc]

theorem decBool_enc (b : Bool) (rest : List Nat) :
    decBool (encBool b ++ rest) = some (b, rest) := by
  cases b <;> simp [decBool, encBool]

theorem decOptNat_enc (o : Option Nat) (rest : List Nat) :
    decOptNat (encOptNat o ++ rest) = some (o, rest) := by
  cases o <;> simp [decOptNat, encOptNat]

theorem decFieldsLoop_enc (fs : Fields) (rest : List Nat) :
    decFieldsLoop fs.length
        ((fs.map (fun q => encString q.1 ++ encString q.2)).flatten ++ rest)
      = some (fs, rest) := by
  induction fs with
  | nil => simp [decFieldsLoop]
  | cons q fs ih =>
    obtain ⟨a, b⟩ := q
    simp [decFieldsLoop, decString_enc, ih]

theorem decFields_enc (fs : Fields) (rest : List Nat) :
    decFields (encFields fs ++ rest) = some (fs, rest) := by
  simp [decFields, encFields, decNat, decFieldsLoop_enc]

theorem decOptFields_enc (o : Option Fields) (rest : List Nat) :
    decOptFields (encOptFields o ++ rest) = some (o, rest) := by
  cases o with
  | none => simp [decOptFields, encOptFields]
  | some fs => simp [decOptFields, encOptFields, decFields_enc]

theorem decStringsLoop_enc (l : List String) (rest : List Nat) :
    decStringsLoop l.length ((l.map encString).flatten ++ rest) = some (l, rest) := by
  induction l with
  | nil => simp [decStringsLoop]
  | cons s l ih => simp [decStringsLoop, decString_enc, ih]

theorem decStringList_enc (l : List String) (rest : List Nat) :
    decStringList (encStringList l ++ rest) = some (l, rest) := by
  simp [decStringList, encStringList, decNat, decStringsLoop_enc]

theorem decFile_enc (f : FileInfo) (rest : List Nat) :
    decFile (encFile f ++ rest) = some (f, rest) := by
  obtain ⟨name, path, lm, fields⟩ := f
  simp [decFile, encFile, decString_enc, decOptNat_enc, decOptFields_enc]

mutual
theorem sizeDir_le_encDir (d : DirInfo) : sizeDir d ≤ (encDir d).length := by
  cases d with
  | mk name path lm exp content fields =>
    have h := sizeNodes_le_encNodes content
    simp [sizeDir, encDir, List.length_append]
    omega

theorem sizeNodes_le_encNodes (l : List FsNode) : sizeNodes l ≤ (encNodes l).length := by
  cases l with
  | nil => simp [sizeNodes, encNodes]
  | cons n rest =>
    have h1 := sizeNode_le_encNode n
    have h2 := sizeNodes_le_encNodes rest
    simp [sizeNodes, encNodes, List.length_append]
    omega

theorem sizeNode_le_encNode (n : FsNode) : sizeNode n ≤ (encNode n).length := by
  cases n with
  | Directory d =>
    have h := sizeDir_le_encDir d
    simp [sizeNode, encNode]
    omega
  | File f => simp [sizeNode, encNode]
end

/-- Decoding inverts encoding, for any fuel at least the number of tree
constructors encoded. -/
theorem dec_enc_fueled : ∀ fuel : Nat,
    (∀ (n : FsNode) (rest : List Nat), sizeNode n ≤ fuel →
        decNodeF fuel (encNode n ++ rest) = some (n, rest)) ∧
    (∀ (l : List FsNode) (rest : List Nat), sizeNodes l ≤ fuel →
        decNodesF fuel l.length (encNodes l ++ rest) = some (l, rest)) ∧
    (∀ (d : DirInfo) (rest : List Nat), sizeDir d ≤ fuel →
        decDirF fuel (encDir d ++ rest) = some (d, rest)) := by
  intro fuel
  induction fuel with
  | zero =>
    refine ⟨fun n rest h => absurd h (by have := one_le_sizeNode n; omega),
            fun l rest h => ?_,
            fun d rest h => absurd h (by have := one_le_sizeDir d; omega)⟩
    cases l with
    | nil => simp [decNodesF, encNodes]
    | cons n l2 =>
      exact absurd h (by have := one_le_sizeNode n; simp [sizeNodes]; omega)
  | succ fuel ih =>
    obtain ⟨ihn, ihl, ihd⟩ := ih
    have hnode : ∀ (n : FsNode) (rest : List Nat), sizeNode n ≤ fuel + 1 →
        decNodeF (fuel + 1) (encNode n ++ rest) = some (n, rest) := by
      intro n rest h
      cases n with
      | Directory d =>
        have e := ihd d rest (by simp [sizeNode] at h; omega)
        simp [encNode, decNodeF, e]
      | File f =>
        simp [encNode, decNodeF, decFile_enc]
    have hnodes : ∀ (l : List FsNode) (rest : List Nat), sizeNodes l ≤ fuel + 1 →
        decNodesF (fuel + 1) l.length (encNodes l ++ rest) = some (l, rest) := by
      intro l
      induction l with
      | nil => intro rest h; simp [decNodesF, encNodes]
      | cons n l2 ihl2 =>
        intro rest h
        simp only [sizeNodes] at h
        have hn1 := one_le_sizeNode n
        have e1 := hnode n (encNodes l2 ++ rest) (by omega)
        have e2 := ihl2 rest (by omega)
        simp [encNodes, decNodesF, List.append_assoc, e1, e2]
    refine ⟨hnode, hnodes, ?_⟩
    intro d rest h
    cases d with
    | mk name path lm exp content fields =>
      simp only [sizeDir] at h
      have e := ihl content (encOptFields fields ++ rest) (by omega)
      simp [encDir, decDirF, List.append_assoc, decString_enc, decOptNat_enc,
        decBool_enc, decNat, e, decOptFields_enc]

/-- `bincode::deserialize::<Watcher>`: the five fields in order.  The fuel
for the tree decoder is the blob length — an encoded tree always has at
least one token per constructor, so this suffices; `bincode` likewise
tolerates trailing bytes. -/
def decWatcher (blob : List Nat) : Option Watcher :=
  match decString blob with
  | none => none
  | some (dir_name, l1) =>
    match decString l1 with
    | none => none
    | some (path, l2) =>
      match decBool l2 with
      | none => none
      | some (ihid, l3) =>
        match decStringList l3 with
        | none => none
        | some (il, l4) =>
          match decDirF blob.length l4 with
          | none => none
          | some (d, _) => some ⟨dir_name, path, ihid, il, d⟩

theorem decWatcher_encWatcher (w : Watcher) : decWatcher (encWatcher w) = some w := by
  obtain ⟨dir_name, path, ihid, il, d⟩ := w
  have hsize : sizeDir d ≤ (encWatcher ⟨dir_name, path, ihid, il, d⟩).length := by
    have h1 := sizeDir_le_encDir d
    simp [encWatcher, List.length_append]
    omega
  have e := (dec_enc_fueled (encWatcher ⟨dir_name, path, ihid, il, d⟩).length).2.2 d [] hsize
  rw [List.append_nil] at e
  simp [encWatcher, List.length_append] at e
  simp [decWatcher, encWatcher, List.append_assoc, List.length_append,
    decString_enc, decBool_enc, decStringList_enc, e]

/-- The on-disk world seen by `save`/`load`: a mapping from file paths to
stored blobs. -/
def Store := String → Option (List Nat)

/-- `std::fs::write`: whole-file overwrite at the given path. -/
def storeWrite (st : Store) (key : String) (v : List Nat) : Store :=
  fun k => if k = key then some v else st k

/-- `Watcher::save`: serialize the whole aggregate and write it to the
sidecar `<root_path>/.watcher`, overwriting any prior snapshot. -/
def Watcher.save (w : Watcher) (st : Store) : Store :=
  storeWrite st (pathJoin w.path ".watcher") (encWatcher w)

/-- `Watcher::load`: resolve the input (empty input means the current
working directory), read `<resolved>/.watcher`, and deserialize; a missing
file or an undecodable blob surfaces as `IOError`.  No filesystem
re-validation is performed on the loaded tree. -/
def Watcher.load (input cwd : String) (st : Store) : Except WatcherError Watcher :=
  match st (pathJoin (resolveInput input cwd) ".watcher") with
  | none => .error .IOError
  | some data =>
    match decWatcher data with
    | none => .error .IOError
    | some w => .ok w

/-! ### Claims C3, C9 — persistence and input resolution -/

/-- Claim C3 (confirmed).  With the store unchanged in between, `save`
followed by `load` of the same root path reproduces the watcher equal in
every field — root name, root path, `ignore_hidden`, `ignore_list` and the
full tree with all node fields — through the sidecar `<root_path>/.watcher`
(the hypothesis only excludes the empty root path, which `load` would
re-resolve against the current working directory). -/
theorem c3_save_load_roundtrip (w : Watcher) (st : Store) (cwd : String)
    (h : w.path ≠ "") :
    Watcher.load w.path cwd (w.save st) = .ok w := by
  simp [Watcher.load, Watcher.save, storeWrite, resolveInput, h, decWatcher_encWatcher]

def c3w : Watcher :=
  ⟨"r", "/tmp/r", false, ["node_modules"],
   .mk "r" "/tmp/r" (some 5) true
     [.File ⟨"a.txt", "/tmp/r/a.txt", some 3, none⟩,
      .Directory (.mk "sub" "/tmp/r/sub" (some 4) false
        [.File ⟨"g", "/tmp/r/sub/g", none, some [("k", "v")]⟩] (some []))]
     (some [])⟩

theorem c3_save_load_roundtrip_witness :
    c3w.path ≠ "" ∧ Watcher.load c3w.path "c" (c3w.save (fun _ => none)) = .ok c3w :=
  ⟨by decide, c3_save_load_roundtrip c3w (fun _ => none) "c" (by decide)⟩

/-- Claim C9 (confirmed).  `Watcher::new`, `Watcher::load` and
`DirInfo::from` all substitute the process's current working directory for
an empty input (first conjunct: with empty input they behave exactly as when
handed the cwd verbatim), and use a non-empty input verbatim (second
conjunct: the cwd argument is then irrelevant). -/
theorem c9_empty_input_uses_cwd (input cwd cwd2 : String)
    (fs : String → Option FSTree) (st : Store) :
    (cwd ≠ "" →
      Watcher.new "" cwd fs = Watcher.new cwd cwd2 fs ∧
      Watcher.load "" cwd st = Watcher.load cwd cwd2 st ∧
      DirInfo.fromPath "" cwd fs = DirInfo.fromPath cwd cwd2 fs) ∧
    (input ≠ "" →
      Watcher.new input cwd fs = Watcher.new input cwd2 fs ∧
      Watcher.load input cwd st = Watcher.load input cwd2 st ∧
      DirInfo.fromPath input cwd fs = DirInfo.fromPath input cwd2 fs) := by
  constructor
  · intro h
    refine ⟨?_, ?_, ?_⟩ <;>
      simp [Watcher.new, Watcher.load, DirInfo.fromPath, resolveInput, h]
  · intro h
    refine ⟨?_, ?_, ?_⟩ <;>
      simp [Watcher.new, Watcher.load, DirInfo.fromPath, resolveInput, h]

theorem c9_empty_input_uses_cwd_witness :
    Watcher.new "" "c" (fun _ => none) = Watcher.new "c" "d" (fun _ => none) ∧
    Watcher.load "" "c" (fun _ => none) = Watcher.load "c" "d" (fun _ => none) ∧
    DirInfo.fromPath "" "c" (fun _ => none) = DirInfo.fromPath "c" "d" (fun _ => none) :=
  (c9_empty_input_uses_cwd "x" "c" "d" (fun _ => none) (fun _ => none)).1 (by decide)
